import Mathlib

/-!
Shallow embedding of a circular write-ahead log, translated from the Rust
sources in src/src (common.rs, wal.rs, mem.rs, sync.rs).  Machine integers
are modelled as Nat; the only place a u32 truncation is observable at the
byte level (the header len field) carries an explicit mod 2^32.
-/

/-- Block size in bytes (src/src/common.rs, BLOCK_SIZE). -/
def BLOCK_SIZE : Nat := 4096

/-- Size in bytes of the packed EntryHeader: three u32 fields (src/src/wal.rs). -/
def HEADER_SIZE : Nat := 12

/-- Rust div_ceil on unsigned integers. -/
def divCeil (a b : Nat) : Nat := (a + b - 1) / b

/-- Logical position in the WAL: block offset and rollover counter
(src/src/common.rs, struct WalPosition). -/
structure WalPosition where
  offset : Nat
  rollover : Nat
deriving DecidableEq, Repr

/-- WalPosition::byte_offset. -/
def WalPosition.byteOffset (p : WalPosition) : Nat := p.offset * BLOCK_SIZE

/-- The PartialOrd implementation for WalPosition from src/src/common.rs,
which compares rollover first, then offset, and always returns Some. -/
def cmpOpt (a b : WalPosition) : Option Ordering :=
  if a.rollover > b.rollover then some Ordering.gt
  else if a.rollover < b.rollover then some Ordering.lt
  else if a.offset > b.offset then some Ordering.gt
  else if a.offset < b.offset then some Ordering.lt
  else some Ordering.eq

/-- Strict order on positions induced by cmpOpt (Rust operator <). -/
def posLt (a b : WalPosition) : Prop := cmpOpt a b = some Ordering.lt

/-- Reflexive closure of posLt (Rust operator <=). -/
def posLe (a b : WalPosition) : Prop := posLt a b ∨ a = b

instance (a b : WalPosition) : Decidable (posLt a b) := by
  unfold posLt; infer_instance

instance (a b : WalPosition) : Decidable (posLe a b) := by
  unfold posLe posLt; infer_instance

/-- One shift step of the reflected CRC-32 with the IEEE polynomial, the
algorithm the crc32fast crate implements. -/
def crc32Step (c : Nat) : Nat :=
  if c % 2 = 1 then (c / 2) ^^^ 0xEDB88320 else c / 2

/-- Fold one byte into the CRC-32 state. -/
def crc32Byte (c b : Nat) : Nat :=
  (List.range 8).foldl (fun acc _ => crc32Step acc) (c ^^^ b)

/-- CRC-32 of a byte list as crc32fast::Hasher computes it. -/
def crc32 (bytes : List Nat) : Nat :=
  (bytes.foldl crc32Byte 0xFFFFFFFF) ^^^ 0xFFFFFFFF

/-- Decoded entry header (src/src/wal.rs, struct EntryHeader). -/
structure EntryHeader where
  crc : Nat
  rollover : Nat
  len : Nat
deriving DecidableEq, Repr

/-- Little-endian byte encoding of a u32 value. -/
def le32 (n : Nat) : List Nat :=
  [n % 256, n / 256 % 256, n / 65536 % 256, n / 16777216 % 256]

/-- Read a little-endian u32 at byte index i. -/
def read32 (bytes : List Nat) (i : Nat) : Nat :=
  bytes.getD i 0 + 256 * bytes.getD (i + 1) 0 + 65536 * bytes.getD (i + 2) 0 +
    16777216 * bytes.getD (i + 3) 0

/-- Interpret the first 12 bytes as an EntryHeader.  zerocopy read_from_bytes
on a packed struct of plain u32 fields never fails when given 12 bytes, so
decoding is total. -/
def decodeHeader (bytes : List Nat) : EntryHeader :=
  { crc := read32 bytes 0, rollover := read32 bytes 4, len := read32 bytes 8 }

/-- EntryHeader::num_blocks. -/
def numBlocksH (h : EntryHeader) : Nat := divCeil (HEADER_SIZE + h.len) BLOCK_SIZE

/-- Blocks occupied by an appended payload:
AlignedSlice::new(data.len() + HEADER_SIZE).blocks. -/
def numBlocksData (data : List Nat) : Nat :=
  divCeil (data.length + HEADER_SIZE) BLOCK_SIZE

/-- The encoded entry buffer built by Wal::append: header whose CRC covers
bytes [4, HEADER_SIZE + len), then the payload, then zero padding up to a
whole number of blocks. -/
def entryBytes (rollover : Nat) (data : List Nat) : List Nat :=
  let len := data.length % 4294967296
  let crc := crc32 (le32 rollover ++ le32 len ++ data.take len)
  le32 crc ++ le32 rollover ++ le32 len ++ data ++
    List.replicate (numBlocksData data * BLOCK_SIZE - (HEADER_SIZE + data.length)) 0

/-- What a device submission sees and decides on: position, number of blocks,
notify flag.  The result is success or an error code.  Both concrete source
devices (mem.rs, sync.rs) accept or reject a write from exactly these data. -/
def AcceptFn : Type := WalPosition → Nat → Bool → Except Nat Unit

/-- A write handed to the device: position, buffer bytes, notify flag. -/
structure DevOp where
  pos : WalPosition
  bytes : List Nat
  notify : Bool
deriving DecidableEq, Repr

/-- Mutable WAL state (src/src/wal.rs, struct Wal). -/
structure WalState where
  capacity : Nat
  head : WalPosition
  tail : WalPosition
deriving DecidableEq, Repr

/-- Second half of Wal::append (src/src/wal.rs lines 175-198): encode the
entry at the possibly wrapped head, submit it with notify=true, and advance
the head unconditionally; the result captured before the advance is
returned. -/
def appendEntry (accept : AcceptFn) (w : WalState) (data : List Nat)
    (writeSize : Nat) (ops : List DevOp) :
    Except Nat WalPosition × List DevOp × WalState :=
  match accept w.head writeSize true with
  | Except.error e =>
      (Except.error e, ops,
        { w with head := ⟨w.head.offset + writeSize, w.head.rollover⟩ })
  | Except.ok _ =>
      (Except.ok w.head, ops ++ [⟨w.head, entryBytes w.head.rollover data, true⟩],
        { w with head := ⟨w.head.offset + writeSize, w.head.rollover⟩ })

/-- Wal::append (src/src/wal.rs lines 153-199).  When the entry would cross
the physical end of the ring, a zero pad-out write is first submitted at the
current head with notify=false and the head moves to offset 0 of the next
rollover; a pad-out failure returns early with the state unchanged.  The
returned triple carries the result, the writes performed, and the new
state. -/
def append (accept : AcceptFn) (w : WalState) (data : List Nat) :
    Except Nat WalPosition × List DevOp × WalState :=
  if w.head.offset + numBlocksData data > w.capacity then
    match accept w.head (divCeil ((w.capacity - w.head.offset) * BLOCK_SIZE) BLOCK_SIZE) false with
    | Except.error e => (Except.error e, [], w)
    | Except.ok _ =>
        appendEntry accept { w with head := ⟨0, w.head.rollover + 1⟩ } data
          (numBlocksData data)
          [⟨w.head, List.replicate ((w.capacity - w.head.offset) * BLOCK_SIZE) 0, false⟩]
  else
    appendEntry accept w data (numBlocksData data) []

/-- Fold append over a list of payloads, collecting the positions returned
by the successful appends. -/
def appendAll (accept : AcceptFn) (w : WalState) :
    List (List Nat) → List WalPosition × WalState
  | [] => ([], w)
  | d :: ds =>
    match append accept w d with
    | (Except.ok p, _, w2) =>
        let rest := appendAll accept w2 ds
        (p :: rest.1, rest.2)
    | (Except.error _, _, w2) => appendAll accept w2 ds

/-- Wal::truncate (src/src/wal.rs lines 203-212).  The first if statement in
the source has an empty body and no effect; only the comparison against the
tail matters. -/
def truncate (w : WalState) (pos : WalPosition) : WalState :=
  if cmpOpt pos w.tail = some Ordering.gt then { w with tail := pos } else w

/-- Byte-addressed model of the backing file: a total byte content function
plus a size; a read_exact succeeds exactly when the requested range lies
inside the size. -/
structure FileModel where
  size : Nat
  byte : Nat → Nat

/-- The n bytes starting at byte position pos. -/
def readN (f : FileModel) (pos n : Nat) : List Nat :=
  (List.range n).map fun i => f.byte (pos + i)

/-- Iterator state (src/src/wal.rs, struct WalIterator): current position,
end position, and the capacity in blocks.  The file itself is passed to
iterNext separately. -/
structure IterState where
  current : WalPosition
  endPos : WalPosition
  capacity : Nat
deriving DecidableEq, Repr

/-- WalIterator::next (src/src/wal.rs lines 67-134).  Yields none when
current >= end or when a read runs past the end of the file; yields an error
item, without advancing, when len and the stored CRC are both nonzero and
the computed CRC differs; otherwise yields the entry and advances, wrapping
the current position when the next offset reaches capacity. -/
def iterNext (f : FileModel) (it : IterState) :
    Option (Except Unit (WalPosition × List Nat)) × IterState :=
  if cmpOpt it.current it.endPos = some Ordering.gt ∨
      cmpOpt it.current it.endPos = some Ordering.eq then
    (none, it)
  else if ¬ (it.current.byteOffset + HEADER_SIZE ≤ f.size) then (none, it)
  else
    let header := decodeHeader (readN f it.current.byteOffset HEADER_SIZE)
    if ¬ (it.current.byteOffset + (HEADER_SIZE + header.len) ≤ f.size) then (none, it)
    else
      let buffer := readN f it.current.byteOffset (HEADER_SIZE + header.len)
      if header.len ≠ 0 ∧ header.crc ≠ 0 ∧ crc32 (buffer.drop 4) ≠ header.crc then
        (some (Except.error ()), it)
      else
        let nextOffset := it.current.offset + numBlocksH header
        let cur : WalPosition := ⟨it.current.offset, header.rollover⟩
        let it2 : IterState :=
          if nextOffset ≥ it.capacity then
            { it with current := ⟨0, header.rollover + 1⟩ }
          else
            { it with current := ⟨nextOffset, header.rollover⟩ }
        (some (Except.ok (cur, (buffer.drop HEADER_SIZE).take header.len)), it2)

/-- Recovery phase A (src/src/wal.rs lines 295-343): follow entries from the
current head until a zero length header, a CRC mismatch, an older rollover,
or the physical end stops the scan.  A read past the end of the file
propagates an error out of open.  The fuel argument bounds the loop; every
iteration advances the offset by at least one block, so any fuel of at least
capacity is enough. -/
def recoverHead (f : FileModel) (cap : Nat) : Nat → WalPosition → Except Unit WalPosition
  | 0, head => Except.ok head
  | fuel + 1, head =>
    if ¬ (head.byteOffset + BLOCK_SIZE ≤ f.size) then Except.error ()
    else
      let header := decodeHeader (readN f head.byteOffset HEADER_SIZE)
      if header.len = 0 then Except.ok head
      else if ¬ (head.byteOffset + (HEADER_SIZE + header.len) ≤ f.size) then Except.error ()
      else if crc32 ((readN f head.byteOffset (HEADER_SIZE + header.len)).drop 4) ≠ header.crc then
        Except.ok head
      else if header.rollover < head.rollover then Except.ok head
      else if head.offset + numBlocksH header ≥ cap then Except.ok head
      else recoverHead f cap fuel ⟨head.offset + numBlocksH header, header.rollover⟩

/-- Recovery phase B candidate loop exactly as the source performs it
(src/src/wal.rs lines 363-415): the loop variable starts at the initial tail
offset (a block count) and is stepped by BLOCK_SIZE; each candidate read
seeks the raw value of the loop variable as a byte position; the full-entry
CRC check reads the bytes at the byte offset of the head, not of the
candidate.  Returns the first accepted loop value, or none. -/
def findTailLoop (f : FileModel) (cap : Nat) (head : WalPosition)
    (tailRollover : Nat) : Nat → Nat → Except Unit (Option Nat)
  | 0, _ => Except.ok none
  | fuel + 1, offset =>
    if offset ≥ cap then Except.ok none
    else if ¬ (offset + BLOCK_SIZE ≤ f.size) then Except.error ()
    else
      let header := decodeHeader (readN f offset HEADER_SIZE)
      if header.rollover ≠ tailRollover then
        findTailLoop f cap head tailRollover fuel (offset + BLOCK_SIZE)
      else if ¬ (head.byteOffset + (HEADER_SIZE + header.len) ≤ f.size) then Except.error ()
      else if crc32 ((readN f head.byteOffset (HEADER_SIZE + header.len)).drop 4) ≠ header.crc then
        findTailLoop f cap head tailRollover fuel (offset + BLOCK_SIZE)
      else Except.ok (some offset)

/-- Recovery phase B as the source performs it (src/src/wal.rs lines
353-416): when head.rollover is positive the tail starts at
(head.rollover - 1, head.offset) and the candidate loop may move its offset;
otherwise the tail stays (0, 0). -/
def phaseBCode (f : FileModel) (cap : Nat) (head : WalPosition) :
    Except Unit WalPosition :=
  if head.rollover > 0 then
    match findTailLoop f cap head (head.rollover - 1) (cap + 1) head.offset with
    | Except.error e => Except.error e
    | Except.ok none => Except.ok ⟨head.offset, head.rollover - 1⟩
    | Except.ok (some o) => Except.ok ⟨o, head.rollover - 1⟩
  else Except.ok ⟨0, 0⟩

/-- Phase B of recovery as the specification words it (spec.md section 4.5):
scan block-by-block from head.offset toward capacity, read the block at each
candidate block offset, and accept the first offset whose header has the
previous rollover and whose entry bytes at that offset pass the CRC check.
Stated only for comparison against phaseBCode. -/
def findTailSpec (f : FileModel) (cap : Nat) (tailRollover : Nat) :
    Nat → Nat → Option Nat
  | 0, _ => none
  | fuel + 1, offset =>
    if offset ≥ cap then none
    else
      let header := decodeHeader (readN f (offset * BLOCK_SIZE) HEADER_SIZE)
      if header.rollover = tailRollover ∧
          crc32 ((readN f (offset * BLOCK_SIZE) (HEADER_SIZE + header.len)).drop 4) =
            header.crc then
        some offset
      else findTailSpec f cap tailRollover fuel (offset + 1)

/-- State of the synchronous device (src/src/sync.rs, struct SyncDevice):
the backing file length and the queue of pending notify positions. -/
structure SyncDevState where
  fileLen : Nat
  pending : List WalPosition
deriving DecidableEq, Repr

/-- SyncDevice::write (src/src/sync.rs lines 32-55): reject a write past the
file length, otherwise push the position onto the pending queue when notify
is set. -/
def syncWrite (s : SyncDevState) (pos : WalPosition) (byteLen : Nat)
    (notify : Bool) : Except Unit SyncDevState :=
  if pos.byteOffset + byteLen > s.fileLen then Except.error ()
  else Except.ok { s with pending := if notify then s.pending ++ [pos] else s.pending }

/-- SyncDevice::process_completions (src/src/sync.rs lines 57-67): syncOk is
the outcome of the single sync_data call; on failure the drain returns empty
and the pending queue is left untouched, on success the queue is drained and
returned. -/
def processCompletions (syncOk : Bool) (s : SyncDevState) :
    List WalPosition × SyncDevState :=
  if syncOk then (s.pending, { s with pending := [] })
  else ([], s)

/-- The source comparison returns lt exactly on the lexicographic strict
order with rollover as the major component. -/
theorem posLt_iff (a b : WalPosition) :
    posLt a b ↔
      a.rollover < b.rollover ∨ (a.rollover = b.rollover ∧ a.offset < b.offset) := by
  unfold posLt cmpOpt
  split_ifs with h1 h2 h3 h4 <;> simp <;> omega

/-- The source comparison returns gt exactly when the arguments are in the
reversed strict order. -/
theorem cmpOpt_gt_iff (a b : WalPosition) :
    cmpOpt a b = some Ordering.gt ↔ posLt b a := by
  rw [posLt_iff]
  unfold cmpOpt
  split_ifs with h1 h2 h3 h4 <;> simp <;> omega

/-- The reflexive closure as arithmetic on the two components. -/
theorem posLe_iff (a b : WalPosition) :
    posLe a b ↔
      a.rollover < b.rollover ∨ (a.rollover = b.rollover ∧ a.offset ≤ b.offset) := by
  unfold posLe
  rw [posLt_iff]
  constructor
  · rintro (h | h | rfl) <;> omega
  · intro h
    rcases a with ⟨ao, ar⟩
    rcases b with ⟨bo, br⟩
    simp only [WalPosition.mk.injEq]
    simp only at h
    omega

/-- Transitivity across the strict and reflexive orders. -/
theorem posLt_of_lt_of_le {a b c : WalPosition} (h1 : posLt a b) (h2 : posLe b c) :
    posLt a c := by
  rw [posLt_iff] at h1 ⊢
  rw [posLe_iff] at h2
  omega

/-- Transitivity of the reflexive order. -/
theorem posLe_trans {a b c : WalPosition} (h1 : posLe a b) (h2 : posLe b c) :
    posLe a c := by
  rw [posLe_iff] at h1 h2 ⊢
  omega

/-- A strictly smaller position is also weakly smaller. -/
theorem posLe_of_lt {a b : WalPosition} (h : posLt a b) : posLe a b := Or.inl h

/-- The reflexive order denies the reversed strict order. -/
theorem not_lt_of_posLe {a b : WalPosition} (h : posLe a b) : ¬ posLt b a := by
  rw [posLe_iff] at h
  rw [posLt_iff]
  omega

/-- A payload always needs at least one block. -/
theorem one_le_numBlocksData (data : List Nat) : 1 ≤ numBlocksData data := by
  unfold numBlocksData divCeil HEADER_SIZE BLOCK_SIZE
  have : 4096 ≤ data.length + 12 + 4096 - 1 := by omega
  exact (Nat.one_le_div_iff (by omega)).mpr this

/-- The state produced by appendEntry always carries the advanced head. -/
theorem appendEntry_state (accept : AcceptFn) (w : WalState) (data : List Nat)
    (writeSize : Nat) (ops : List DevOp) :
    (appendEntry accept w data writeSize ops).2.2 =
      { w with head := ⟨w.head.offset + writeSize, w.head.rollover⟩ } := by
  unfold appendEntry
  cases accept w.head writeSize true <;> rfl

/-- Any append leaves the head weakly larger, whatever the device answers. -/
theorem append_head_mono (accept : AcceptFn) (w : WalState) (data : List Nat) :
    posLe w.head ((append accept w data).2.2).head := by
  have hnb := one_le_numBlocksData data
  unfold append
  split
  · cases accept w.head (divCeil ((w.capacity - w.head.offset) * BLOCK_SIZE) BLOCK_SIZE) false
    · exact Or.inr rfl
    · rw [appendEntry_state]
      refine Or.inl ((posLt_iff _ _).mpr (Or.inl ?_))
      simp
  · rw [appendEntry_state]
    refine Or.inl ((posLt_iff _ _).mpr (Or.inr ⟨rfl, ?_⟩))
    simp
    omega

/-- A successful append returns a position at least the old head and
strictly below the new head. -/
theorem append_ok_bounds {accept : AcceptFn} {w : WalState} {data : List Nat}
    {p : WalPosition} {ops : List DevOp} {w2 : WalState}
    (h : append accept w data = (Except.ok p, ops, w2)) :
    posLe w.head p ∧ posLt p w2.head := by
  have hnb := one_le_numBlocksData data
  unfold append appendEntry at h
  split at h
  · split at h
    · exact absurd h (by simp)
    · split at h
      · exact absurd h (by simp)
      · simp only [Prod.mk.injEq, Except.ok.injEq] at h
        obtain ⟨hp, _, hw2⟩ := h
        subst hw2
        refine ⟨Or.inl ((posLt_iff _ _).mpr (Or.inl ?_)), (posLt_iff _ _).mpr (Or.inr ⟨?_, ?_⟩)⟩ <;>
          simp [← hp]
        omega
  · split at h
    · exact absurd h (by simp)
    · simp only [Prod.mk.injEq, Except.ok.injEq] at h
      obtain ⟨hp, _, hw2⟩ := h
      subst hw2
      refine ⟨Or.inr ?_, (posLt_iff _ _).mpr (Or.inr ⟨?_, ?_⟩)⟩ <;> simp [← hp]
      omega

/-- Every position collected by a run of appends is at least the head the
run started from. -/
theorem appendAll_lower (accept : AcceptFn) :
    ∀ (ds : List (List Nat)) (w : WalState) (q : WalPosition),
      q ∈ (appendAll accept w ds).1 → posLe w.head q := by
  intro ds
  induction ds with
  | nil =>
    intro w q hq
    simp [appendAll] at hq
  | cons d ds ih =>
    intro w q hq
    unfold appendAll at hq
    rcases happ : append accept w d with ⟨res, ops, w2⟩
    rw [happ] at hq
    have hmono := append_head_mono accept w d
    rw [happ] at hmono
    cases res with
    | ok p =>
      simp only at hq
      rcases List.mem_cons.mp hq with rfl | hq2
      · exact (append_ok_bounds happ).1
      · exact posLe_trans (by simpa using hmono) (ih w2 q hq2)
    | error e =>
      simp only at hq
      exact posLe_trans (by simpa using hmono) (ih w2 q hq)

/-- C5: for every sequence of appends on one WAL and any device answers, the
positions returned by the successful appends are strictly increasing in the
position order, including across a rollover increment. -/
theorem c5_positions_strictly_increasing (accept : AcceptFn) (w : WalState)
    (ds : List (List Nat)) :
    List.Pairwise posLt (appendAll accept w ds).1 := by
  induction ds generalizing w with
  | nil => simp [appendAll]
  | cons d ds ih =>
    unfold appendAll
    rcases happ : append accept w d with ⟨res, ops, w2⟩
    cases res with
    | ok p =>
      simp only
      refine List.pairwise_cons.mpr ⟨?_, ih w2⟩
      intro q hq
      exact posLt_of_lt_of_le (append_ok_bounds happ).2
        (appendAll_lower accept ds w2 q hq)
    | error e =>
      simp only
      exact ih w2

/-- C1: an append that would cross the physical end first performs the
zero-filled pad-out write of (capacity - head.offset) * BLOCK_SIZE bytes at
the current head with notify off, writes the entry at offset 0 of the next
rollover, and, given the documented precondition that the entry fits in the
ring, every successful append returns a position p with
p.offset + num_blocks <= capacity. -/
theorem c1_append_no_span (accept : AcceptFn) (w : WalState) (data : List Nat)
    (p : WalPosition) (ops : List DevOp) (w2 : WalState)
    (hcap : numBlocksData data ≤ w.capacity)
    (happ : append accept w data = (Except.ok p, ops, w2)) :
    (w.head.offset + numBlocksData data > w.capacity →
      ops = [⟨w.head, List.replicate ((w.capacity - w.head.offset) * BLOCK_SIZE) 0, false⟩,
        ⟨⟨0, w.head.rollover + 1⟩, entryBytes (w.head.rollover + 1) data, true⟩] ∧
      p = ⟨0, w.head.rollover + 1⟩) ∧
    p.offset + numBlocksData data ≤ w.capacity := by
  unfold append appendEntry at happ
  split at happ
  case isTrue hw =>
    split at happ
    · exact absurd happ (by simp)
    · split at happ
      · exact absurd happ (by simp)
      · simp only [Prod.mk.injEq, Except.ok.injEq] at happ
        obtain ⟨hp, hops, hw2⟩ := happ
        refine ⟨fun _ => ⟨?_, ?_⟩, ?_⟩
        · rw [← hops]
          rfl
        · rw [← hp]
        · rw [← hp]
          simpa using hcap
  case isFalse hw =>
    split at happ
    · exact absurd happ (by simp)
    · simp only [Prod.mk.injEq, Except.ok.injEq] at happ
      obtain ⟨hp, hops, hw2⟩ := happ
      refine ⟨fun hcon => absurd hcon hw, ?_⟩
      rw [← hp]
      omega

/-- Device oracle that accepts every write. -/
def acceptAll : AcceptFn := fun _ _ _ => Except.ok ()

/-- Witness for c1_append_no_span: capacity 1, head at offset 1, one byte of
payload; the append wraps, pads zero bytes, and lands at (offset 0,
rollover 1). -/
theorem c1_witness :
    append acceptAll ⟨1, ⟨1, 0⟩, ⟨0, 0⟩⟩ [5] =
      (Except.ok ⟨0, 1⟩,
        [⟨⟨1, 0⟩, [], false⟩, ⟨⟨0, 1⟩, entryBytes 1 [5], true⟩],
        ⟨1, ⟨1, 1⟩, ⟨0, 0⟩⟩) ∧
    numBlocksData [5] ≤ 1 ∧
    ([⟨⟨1, 0⟩, [], false⟩, ⟨⟨0, 1⟩, entryBytes 1 [5], true⟩] : List DevOp) =
      [⟨⟨1, 0⟩, List.replicate ((1 - 1) * BLOCK_SIZE) 0, false⟩,
        ⟨⟨0, 1⟩, entryBytes (0 + 1) [5], true⟩] ∧
    (⟨0, 1⟩ : WalPosition).offset + numBlocksData [5] ≤ 1 := by
  have h := c1_append_no_span acceptAll ⟨1, ⟨1, 0⟩, ⟨0, 0⟩⟩ [5] ⟨0, 1⟩
      [⟨⟨1, 0⟩, [], false⟩, ⟨⟨0, 1⟩, entryBytes 1 [5], true⟩] ⟨1, ⟨1, 1⟩, ⟨0, 0⟩⟩
      (by decide) rfl
  exact ⟨rfl, by decide, (h.1 (by decide)).1, h.2⟩

/-- Device oracle that rejects every write with error code 7. -/
def acceptNever : AcceptFn := fun _ _ _ => Except.error 7

/-- C2 counterexample: with capacity 4 and head (offset 1, rollover 0), a
one byte append whose submission fails still moves the head to offset 2, so
the head is not left unchanged as the claim states. -/
theorem c2_counterexample :
    append acceptNever ⟨4, ⟨1, 0⟩, ⟨0, 0⟩⟩ [5] =
      (Except.error 7, [], ⟨4, ⟨2, 0⟩, ⟨0, 0⟩⟩) ∧
    (⟨2, 0⟩ : WalPosition) ≠ ⟨1, 0⟩ :=
  ⟨rfl, by decide⟩

/-- C2 (amended): when the device submission of the encoded entry fails,
append propagates that error, performs no further writes, and still
advances head.offset by num_blocks, so the same slot is not retried by the
next append.  Both the non-wrapping and the wrapping path behave this
way. -/
theorem c2_error_advances_head (accept : AcceptFn) (w : WalState)
    (data : List Nat) (e : Nat) :
    (w.head.offset + numBlocksData data ≤ w.capacity →
      accept w.head (numBlocksData data) true = Except.error e →
      append accept w data =
        (Except.error e, [],
          { w with head := ⟨w.head.offset + numBlocksData data, w.head.rollover⟩ })) ∧
    (w.head.offset + numBlocksData data > w.capacity →
      accept w.head (divCeil ((w.capacity - w.head.offset) * BLOCK_SIZE) BLOCK_SIZE) false =
        Except.ok () →
      accept ⟨0, w.head.rollover + 1⟩ (numBlocksData data) true = Except.error e →
      append accept w data =
        (Except.error e,
          [⟨w.head, List.replicate ((w.capacity - w.head.offset) * BLOCK_SIZE) 0, false⟩],
          { w with head := ⟨numBlocksData data, w.head.rollover + 1⟩ })) := by
  constructor
  · intro hfit herr
    unfold append appendEntry
    rw [if_neg (by omega), herr]
  · intro hwrap hpad herr
    unfold append appendEntry
    rw [if_pos hwrap, hpad]
    simp only [herr]
    simp

/-- Witness for c2_error_advances_head: both branches at concrete inputs. -/
theorem c2_witness :
    append acceptNever ⟨4, ⟨1, 0⟩, ⟨0, 0⟩⟩ [9] =
      (Except.error 7, [], ⟨4, ⟨2, 0⟩, ⟨0, 0⟩⟩) ∧
    append (fun _ _ notify => if notify then Except.error 3 else Except.ok ())
        ⟨4, ⟨4, 0⟩, ⟨0, 0⟩⟩ [9] =
      (Except.error 3, [⟨⟨4, 0⟩, [], false⟩], ⟨4, ⟨1, 1⟩, ⟨0, 0⟩⟩) := by
  constructor
  · have h := (c2_error_advances_head acceptNever ⟨4, ⟨1, 0⟩, ⟨0, 0⟩⟩ [9] 7).1
      (by decide) rfl
    exact h
  · have h := (c2_error_advances_head
        (fun _ _ notify => if notify then Except.error 3 else Except.ok ())
        ⟨4, ⟨4, 0⟩, ⟨0, 0⟩⟩ [9] 3).2 (by decide) rfl rfl
    exact h

/-- C8: truncate sets the tail to pos exactly when pos is strictly greater
than the current tail in the position order, and otherwise leaves the whole
WAL state unchanged. -/
theorem c8_truncate_semantics (w : WalState) (pos : WalPosition) :
    (posLt w.tail pos → truncate w pos = { w with tail := pos }) ∧
    (posLe pos w.tail → truncate w pos = w) := by
  constructor
  · intro h
    unfold truncate
    rw [if_pos ((cmpOpt_gt_iff pos w.tail).mpr h)]
  · intro h
    unfold truncate
    rw [if_neg (fun hgt => not_lt_of_posLe h ((cmpOpt_gt_iff pos w.tail).mp hgt))]

/-- Witness for c8_truncate_semantics: one advancing call and one no-op
call at concrete positions. -/
theorem c8_witness :
    truncate ⟨4, ⟨3, 0⟩, ⟨1, 0⟩⟩ ⟨2, 0⟩ = ⟨4, ⟨3, 0⟩, ⟨2, 0⟩⟩ ∧
    truncate ⟨4, ⟨3, 0⟩, ⟨1, 0⟩⟩ ⟨1, 0⟩ = ⟨4, ⟨3, 0⟩, ⟨1, 0⟩⟩ :=
  ⟨(c8_truncate_semantics ⟨4, ⟨3, 0⟩, ⟨1, 0⟩⟩ ⟨2, 0⟩).1 (by decide),
    (c8_truncate_semantics ⟨4, ⟨3, 0⟩, ⟨1, 0⟩⟩ ⟨1, 0⟩).2 (by decide)⟩

/-- C9: the source comparison on positions is the lexicographic order with
rollover as the major key, and it is total: any two positions compare
strictly one way, the other way, or are equal. -/
theorem c9_position_order_lex_total (a b : WalPosition) :
    (cmpOpt a b = some Ordering.lt ↔
      a.rollover < b.rollover ∨ (a.rollover = b.rollover ∧ a.offset < b.offset)) ∧
    (cmpOpt a b = some Ordering.lt ∨ a = b ∨ cmpOpt b a = some Ordering.lt) := by
  constructor
  · exact posLt_iff a b
  · rcases Nat.lt_trichotomy a.rollover b.rollover with h | h | h
    · exact Or.inl ((posLt_iff a b).mpr (Or.inl h))
    · rcases Nat.lt_trichotomy a.offset b.offset with h2 | h2 | h2
      · exact Or.inl ((posLt_iff a b).mpr (Or.inr ⟨h, h2⟩))
      · refine Or.inr (Or.inl ?_)
        rcases a with ⟨ao, ar⟩
        rcases b with ⟨bo, br⟩
        simp only at h h2
        simp [h, h2]
      · exact Or.inr (Or.inr ((posLt_iff b a).mpr (Or.inr ⟨h.symm, h2⟩)))
    · exact Or.inr (Or.inr ((posLt_iff b a).mpr (Or.inl h)))

/-- C10: append performs no check of the payload length: an empty payload
that the device accepts returns Ok at the current head and writes an entry
whose header has len 0, and recovery phase A stops as soon as the block at
its head decodes to a len 0 header, treating it as the end of initialized
data. -/
theorem c10_zero_length_append (accept : AcceptFn) (w : WalState)
    (f : FileModel) (cap fuel : Nat) (head : WalPosition)
    (hroom : w.head.offset + 1 ≤ w.capacity)
    (hacc : accept w.head 1 true = Except.ok ())
    (hread : head.byteOffset + BLOCK_SIZE ≤ f.size)
    (hlen0 : (decodeHeader (readN f head.byteOffset HEADER_SIZE)).len = 0) :
    append accept w [] =
      (Except.ok w.head, [⟨w.head, entryBytes w.head.rollover [], true⟩],
        { w with head := ⟨w.head.offset + 1, w.head.rollover⟩ }) ∧
    (decodeHeader (entryBytes w.head.rollover [])).len = 0 ∧
    recoverHead f cap (fuel + 1) head = Except.ok head := by
  refine ⟨?_, ?_, ?_⟩
  · have hnb : numBlocksData ([] : List Nat) = 1 := rfl
    unfold append appendEntry
    simp only [hnb]
    rw [if_neg (by omega), hacc]
    rfl
  · simp [entryBytes, decodeHeader, read32, le32]
  · simp only [recoverHead]
    rw [if_neg (not_not_intro hread), if_pos hlen0]

/-- The all-zero one-block file used as the recovery fixture. -/
def fileZ : FileModel := ⟨4096, fun _ => 0⟩

/-- Witness for c10_zero_length_append: a WAL of capacity 4 with room at
the head and a zeroed one-block file. -/
theorem c10_witness :
    append acceptAll ⟨4, ⟨0, 0⟩, ⟨0, 0⟩⟩ [] =
      (Except.ok ⟨0, 0⟩, [⟨⟨0, 0⟩, entryBytes 0 [], true⟩], ⟨4, ⟨1, 0⟩, ⟨0, 0⟩⟩) ∧
    (decodeHeader (entryBytes 0 [])).len = 0 ∧
    recoverHead fileZ 1 1 ⟨0, 0⟩ = Except.ok ⟨0, 0⟩ := by
  have h := c10_zero_length_append acceptAll ⟨4, ⟨0, 0⟩, ⟨0, 0⟩⟩ fileZ 1 0 ⟨0, 0⟩
      (by decide) rfl (by decide) (by decide)
  exact h

set_option maxRecDepth 100000

/-- One-block file holding an entry with stored CRC 0, len 1, payload 7:
its stored CRC disagrees with the computed CRC but is zero. -/
def fileA : FileModel := ⟨4096, fun i => if i = 8 then 1 else if i = 12 then 7 else 0⟩

/-- One-block file holding an entry with stored CRC 5, len 1, payload 7:
its stored CRC disagrees with the computed CRC and is nonzero. -/
def fileB : FileModel :=
  ⟨4096, fun i => if i = 0 then 5 else if i = 8 then 1 else if i = 12 then 7 else 0⟩

/-- Iterator fixture: current (0, 0), end (offset 1, rollover 0),
capacity 1. -/
def itA : IterState := ⟨⟨0, 0⟩, ⟨1, 0⟩, 1⟩

/-- C4 counterexample.  First: on fileA the stored CRC differs from the
computed CRC, yet the iterator yields the entry as data, not an error,
because the source skips verification when the stored CRC is zero.  Second:
on fileB the iterator yields the error without advancing its state, so the
identical next call yields the same error again instead of none; the
iterator is not exhausted after the error. -/
theorem c4_counterexample :
    crc32 ((readN fileA 0 13).drop 4) ≠ (decodeHeader (readN fileA 0 12)).crc ∧
    iterNext fileA itA = (some (Except.ok (⟨0, 0⟩, [7])), ⟨⟨0, 1⟩, ⟨1, 0⟩, 1⟩) ∧
    iterNext fileB itA = (some (Except.error ()), itA) :=
  ⟨by decide, rfl, rfl⟩

/-- C4 (amended): when the current entry has nonzero len, nonzero stored
CRC, and the computed CRC over bytes [4, HEADER_SIZE + len) differs from
the stored one, the iterator yields an invalid-data error and leaves its
state unchanged; the same call therefore repeats the same error rather than
exhausting the iterator, and entries whose stored CRC or len is zero are
never flagged. -/
theorem c4_crc_error_repeats (f : FileModel) (it : IterState)
    (hlt : cmpOpt it.current it.endPos = some Ordering.lt)
    (h1 : it.current.byteOffset + HEADER_SIZE ≤ f.size)
    (h2 : it.current.byteOffset +
        (HEADER_SIZE + (decodeHeader (readN f it.current.byteOffset HEADER_SIZE)).len) ≤ f.size)
    (hlen : (decodeHeader (readN f it.current.byteOffset HEADER_SIZE)).len ≠ 0)
    (hcrc : (decodeHeader (readN f it.current.byteOffset HEADER_SIZE)).crc ≠ 0)
    (hmm : crc32 ((readN f it.current.byteOffset
        (HEADER_SIZE + (decodeHeader (readN f it.current.byteOffset HEADER_SIZE)).len)).drop 4) ≠
        (decodeHeader (readN f it.current.byteOffset HEADER_SIZE)).crc) :
    iterNext f it = (some (Except.error ()), it) := by
  unfold iterNext
  rw [if_neg (by simp [hlt]), if_neg (not_not_intro h1)]
  rw [if_neg (not_not_intro h2)]
  rw [if_pos ⟨hlen, hcrc, hmm⟩]

/-- Witness for c4_crc_error_repeats on the concrete fileB fixture. -/
theorem c4_witness : iterNext fileB itA = (some (Except.error ()), itA) :=
  c4_crc_error_repeats fileB itA (by decide) (by decide) (by decide)
    (by decide) (by decide) (by decide)

/-- Sync device fixture: one pending position. -/
def s6 : SyncDevState := ⟨4096, [⟨0, 0⟩]⟩

/-- C6 counterexample: a drain whose sync fails yields the empty list but
leaves the pending queue in place, and the position is then returned by the
next successful drain, contradicting the claim that it is never returned by
any later drain. -/
theorem c6_counterexample :
    processCompletions false s6 = ([], s6) ∧
    processCompletions true s6 = ([⟨0, 0⟩], ⟨4096, []⟩) :=
  ⟨rfl, rfl⟩

/-- C6 (amended): a successful drain returns exactly the queued notify
positions and clears the queue; a drain whose single data-sync fails yields
the empty sequence and leaves the pending queue untouched, so the positions
are returned by the next successful drain; writes queue their position
exactly when notify is set. -/
theorem c6_drain_retains_pending (s : SyncDevState) (pos : WalPosition) (n : Nat) :
    processCompletions true s = (s.pending, { s with pending := [] }) ∧
    processCompletions false s = ([], s) ∧
    (pos.byteOffset + n ≤ s.fileLen →
      syncWrite s pos n true = Except.ok { s with pending := s.pending ++ [pos] } ∧
      syncWrite s pos n false = Except.ok s) := by
  refine ⟨rfl, rfl, fun h => ⟨?_, ?_⟩⟩
  · unfold syncWrite
    rw [if_neg (by omega)]
    rfl
  · unfold syncWrite
    rw [if_neg (by omega)]
    rfl

/-- Witness for c6_drain_retains_pending: an in-range write on the sync
device fixture, with and without notify. -/
theorem c6_witness :
    syncWrite s6 ⟨0, 0⟩ 12 true = Except.ok ⟨4096, [⟨0, 0⟩, ⟨0, 0⟩]⟩ ∧
    syncWrite s6 ⟨0, 0⟩ 12 false = Except.ok s6 := by
  have h := (c6_drain_retains_pending s6 ⟨0, 0⟩ 12).2.2 (by decide)
  exact h

/-- CRC of the valid rollover 0 entry placed at block 3 of fileC3. -/
def c3crc : Nat := crc32 [0, 0, 0, 0, 1, 0, 0, 0, 7]

/-- Four-block file: zeros everywhere except a valid rollover 0 entry with
len 1 and payload 7 at block 3 (byte 12288). -/
def fileC3 : FileModel :=
  ⟨16384, fun i =>
    if 12288 ≤ i ∧ i < 12292 then (le32 c3crc).getD (i - 12288) 0
    else if i = 12296 then 1
    else if i = 12300 then 7
    else 0⟩

/-- C3: with head (offset 2, rollover 1) on fileC3 the source phase B keeps
the fallback tail offset 2: its loop steps the block counter by BLOCK_SIZE
so only offset 2 is examined, the candidate read seeks the raw block number
as a byte offset, and the CRC check reads the bytes at the head.  The
block-by-block scan the specification describes accepts the valid previous
rollover entry at block offset 3 instead. -/
theorem c3_phaseB_divergence :
    phaseBCode fileC3 4 ⟨2, 1⟩ = Except.ok ⟨2, 0⟩ ∧
    findTailSpec fileC3 4 0 4 2 = some 3 :=
  ⟨rfl, rfl⟩
